import Mathlib

/-!
# github-archive: a shallow embedding of `github-archive.go`

The program lists the repositories of an organisation page by page, sends one
`Repo` descriptor per repository on a channel, and fifty workers clone, tar and
upload each repository to an object store.

External calls (the listing API, `ioutil.TempDir`, `exec.Cmd.Run`, `os.Open`,
`bucket.PutWriter`, `io.Copy`, `Close`, `os.RemoveAll`) are modelled by their
results, given as an environment, and every call is recorded in a trace.
-/

namespace GithubArchive

/-! ## Values -/

/-- A non-nil Go `error`, identified with the text of its `Error()` method.
A Go `error` that may be nil is an `Option Err`. -/
structure Err where
  msg : String
  deriving DecidableEq, Repr

/-- The source's `type Repo struct`. -/
structure Repo where
  Date : String
  Owner : String
  Name : String
  URL : String
  deriving DecidableEq, Repr

/-! ## The fragment of `fmt` used by the program -/

/-- An operand of a formatting call: a `string` or an `int64`. -/
inductive Arg where
  | str (s : String)
  | int (i : Int)
  deriving DecidableEq, Repr

/-- The Go type name and the default rendering of an operand. -/
def Arg.typed : Arg → List Char
  | .str s => "string=".data ++ s.data
  | .int i => "int64=".data ++ (toString i).data

/-- The operands that no verb consumed, as Go reports them. -/
def extraArgs : List Arg → List Char
  | [] => []
  | [a] => a.typed
  | a :: b :: rest => a.typed ++ ", ".data ++ extraArgs (b :: rest)

/-- The formatting loop of `fmt.Sprintf` on the characters of the format, for
the verbs the program uses: `%s` on a string, `%d` on an integer, and `%%`.
A verb without operand prints `%!v(MISSING)`, a verb that does not fit its
operand prints `%!v(type=value)`, and left-over operands are appended as
`%!(EXTRA ...)`. Flags, widths and the remaining verbs are not modelled. -/
def sprintfAux : List Char → List Arg → List Char
  | [], [] => []
  | [], a :: args => "%!(EXTRA ".data ++ extraArgs (a :: args) ++ [')']
  | c :: fmt, args =>
    if c = '%' then
      match fmt with
      | [] => "%!(NOVERB)".data ++ sprintfAux [] args
      | v :: fmt' =>
        if v = '%' then '%' :: sprintfAux fmt' args
        else
          match args with
          | [] => '%' :: '!' :: v :: "(MISSING)".data ++ sprintfAux fmt' []
          | a :: args' =>
            match a with
            | .str s =>
              if v = 's' then s.data ++ sprintfAux fmt' args'
              else '%' :: '!' :: v :: '(' :: a.typed ++ ')' :: sprintfAux fmt' args'
            | .int i =>
              if v = 'd' then (toString i).data ++ sprintfAux fmt' args'
              else '%' :: '!' :: v :: '(' :: a.typed ++ ')' :: sprintfAux fmt' args'
    else c :: sprintfAux fmt args

/-- The call `fmt.Sprintf(format, args...)`. -/
def Sprintf (format : String) (args : List Arg) : String :=
  String.mk (sprintfAux format.data args)

/-! ## One archive job: `uploadRepositoryToS3` -/

/-- The external calls a job makes, with their arguments. -/
inductive Event where
  /-- The call `ioutil.TempDir(dir, pfx)`. -/
  | tempDir (dir pfx : String)
  /-- The call `exec.Command(name, args...)` run with `cmd.Dir = dir`. -/
  | run (name : String) (args : List String) (dir : String)
  /-- The call `os.Open(filepath.Join(elems...))`. -/
  | osOpen (elems : List String)
  /-- The call `bucket.PutWriter(key, nil, nil)`. -/
  | putWriter (key : String)
  /-- The call `io.Copy(w, archiveFile)`. -/
  | ioCopy
  /-- The call `w.Close()`. -/
  | closeWriter
  /-- The deferred call `archiveFile.Close()`. -/
  | closeFile
  /-- The call `os.RemoveAll(path)` made by `cleanup`. -/
  | removeAll (path : String)
  deriving DecidableEq, Repr

/-- What the outside world answers to the calls of one job. -/
structure JobEnv where
  /-- The result of `ioutil.TempDir`: the directory created, or an error. -/
  tempDir : Except Err String
  /-- The result of `cmd.Run()` for `git clone`. -/
  gitClone : Option Err
  /-- The result of `cmd.Run()` for `tar cvzf`. -/
  tar : Option Err
  /-- The error result of `os.Open`. -/
  osOpen : Option Err
  /-- The error result of `bucket.PutWriter`. -/
  putWriter : Option Err
  /-- The two results of `io.Copy`: bytes copied and error. -/
  ioCopy : Int × Option Err
  /-- The result of `w.Close()`. -/
  closeWriter : Option Err
  /-- The result of `os.RemoveAll`. -/
  removeAll : Option Err

/-- How a call ends: it returns its two results, or `log.Fatal` has ended the
process before it could return. -/
inductive Outcome where
  | returned (n : Int) (err : Option Err)
  | fatal (err : Err)
  deriving DecidableEq, Repr

/-- The calls made by a job and the way it ended. -/
structure JobResult where
  trace : List Event
  outcome : Outcome
  deriving DecidableEq, Repr

/-- The source's `cloneRepo`: runs `git clone repoURL directory` in `cmdDir`. -/
def cloneRepo (runResult : Option Err) (cmdDir repoURL directory : String) :
    List Event × Option Err :=
  let cmd := Event.run "git" ["clone", repoURL, directory] cmdDir
  match runResult with
  | some err => ([cmd], some err)
  | none => ([cmd], none)

/-- The source's `archiveRepo`: runs `tar cvzf archiveFile directory` in `cmdDir`. -/
def archiveRepo (runResult : Option Err) (cmdDir archiveFile directory : String) :
    List Event × Option Err :=
  let cmd := Event.run "tar" ["cvzf", archiveFile, directory] cmdDir
  match runResult with
  | some err => ([cmd], some err)
  | none => ([cmd], none)

/-- The source's `cleanup`: `os.RemoveAll(path)`; the error it may give is the
one handed to `log.Fatal`. -/
def cleanup (removeResult : Option Err) (path : String) : List Event × Option Err :=
  ([Event.removeAll path], removeResult)

/-- The local `cloneDirectory` of `uploadRepositoryToS3`. -/
def cloneDirectory (repo : Repo) : String :=
  Sprintf "%s-%s-%s" [.str repo.Owner, .str repo.Name, .str repo.Date]

/-- The local `s3Key` of `uploadRepositoryToS3`. -/
def s3Key (repo : Repo) : String :=
  Sprintf "%s/%s/%s-%s.tar.gz" [.str repo.Date, .str repo.Owner, .str repo.Name, .str repo.Date]

/-- The source's `uploadRepositoryToS3`, after `ioutil.TempDir` has succeeded
and up to the return statement: the calls made, whether `archiveFile` was
opened (so that its deferred `Close` is pending), and the two results. -/
def uploadBody (env : JobEnv) (tmp : String) (repo : Repo) :
    List Event × Bool × Int × Option Err :=
  let cloneDirectory := cloneDirectory repo
  match cloneRepo env.gitClone tmp repo.URL cloneDirectory with
  | (t1, some err) => (t1, false, 0, some err)
  | (t1, none) =>
    let archive := cloneDirectory ++ ".tar.gz"
    match archiveRepo env.tar tmp archive cloneDirectory with
    | (t2, some err) => (t1 ++ t2, false, 0, some err)
    | (t2, none) =>
      let t3 := [Event.osOpen [tmp, archive]]
      match env.osOpen with
      | some err => (t1 ++ t2 ++ t3, false, 0, some err)
      | none =>
        let s3Key := s3Key repo
        let t4 := [Event.putWriter s3Key]
        match env.putWriter with
        | some err => (t1 ++ t2 ++ t3 ++ t4, true, 0, some err)
        | none =>
          let t5 := [Event.ioCopy]
          match env.ioCopy with
          | (_, some err) => (t1 ++ t2 ++ t3 ++ t4 ++ t5, true, 0, some err)
          | (n, none) =>
            let t6 := [Event.closeWriter]
            match env.closeWriter with
            | some err => (t1 ++ t2 ++ t3 ++ t4 ++ t5 ++ t6, true, 0, some err)
            | none => (t1 ++ t2 ++ t3 ++ t4 ++ t5 ++ t6, true, n, none)

/-- The source's `uploadRepositoryToS3`. The deferred calls run when the body
returns, last deferred first: `archiveFile.Close()` if the file was opened,
then `cleanup(tmp)`, whose `log.Fatal` ends the process when the removal
fails. -/
def uploadRepositoryToS3 (env : JobEnv) (repo : Repo) : JobResult :=
  let t0 := [Event.tempDir "" "gh-archive-"]
  match env.tempDir with
  | .error err => ⟨t0, .returned 0 (some err)⟩
  | .ok tmp =>
    match uploadBody env tmp repo with
    | (body, opened, n, err) =>
      let deferredClose := if opened then [Event.closeFile] else []
      match cleanup env.removeAll tmp with
      | (t7, none) => ⟨t0 ++ body ++ deferredClose ++ t7, .returned n err⟩
      | (t7, some fatal) => ⟨t0 ++ body ++ deferredClose ++ t7, .fatal fatal⟩

/-! ## The worker -/

/-- What a worker does: the external calls of its jobs, the lines it prints
with `fmt.Printf`, and the deferred `wg.Done()`. -/
inductive WorkerEvent where
  | job (e : Event)
  | print (line : String)
  | wgDone
  deriving DecidableEq, Repr

/-- The actions of a worker, and the error given to `log.Fatal` if a cleanup
ended the process while the worker was running. -/
structure WorkerResult where
  trace : List WorkerEvent
  fatal : Option Err
  deriving DecidableEq, Repr

/-- The two `if` statements of the worker's loop body, on the results
`n, err` of the job. -/
def report (repo : Repo) (n : Int) (err : Option Err) : List WorkerEvent :=
  (match err with
    | some e => [WorkerEvent.print (Sprintf "Error while downloading %s: %s\n"
        [.str repo.URL, .str e.msg])]
    | none => [])
  ++
  (if n ≠ 0 then
    [WorkerEvent.print (Sprintf "Successfully uploaded %s (%d bytes)\n" [.str repo.URL, .int n])]
  else [])

/-- The source's `worker`, run on the descriptors it receives from the channel
until the channel is closed, each paired with what the world answers during
that job. -/
def worker : List (Repo × JobEnv) → WorkerResult
  | [] => ⟨[.wgDone], none⟩
  | (repo, env) :: rest =>
    let r := uploadRepositoryToS3 env repo
    match r.outcome with
    | .fatal err => ⟨r.trace.map .job, some err⟩
    | .returned n err =>
      let w := worker rest
      ⟨r.trace.map .job ++ report repo n err ++ w.trace, w.fatal⟩

/-! ## The enumerator: `uploadReposForOrg` -/

/-- The field of `github.User` the program reads; a nil pointer is `none`. -/
structure User where
  Login : Option String
  deriving DecidableEq, Repr

/-- The fields of `github.Repository` the program reads; each is a pointer in
the library, and a nil pointer is `none`. -/
structure Repository where
  Owner : Option User
  Name : Option String
  SSHURL : Option String
  deriving DecidableEq, Repr

/-- What one call of `githubClient.Repositories.ListByOrg` answers: a page of
repositories with the `NextPage` of the response, or an error. -/
inductive ListResult where
  | ok (repos : List Repository) (nextPage : Int)
  | error (err : Err)
  deriving DecidableEq, Repr

/-- What the enumerator does: listing requests and sends on `repoChan`. -/
inductive EnumEvent where
  /-- The call `ListByOrg(org, opt)` with `opt.Page = page`, `opt.PerPage = perPage`. -/
  | listByOrg (org : String) (page perPage : Int)
  /-- The send `repoChan <- r`. -/
  | send (r : Repo)
  deriving DecidableEq, Repr

/-- How the enumerator ends: it returns its error result, it panics on a nil
pointer, or it is still waiting for the answer to a listing request. -/
inductive EnumOutcome where
  | returned (err : Option Err)
  | panicked
  | waiting
  deriving DecidableEq, Repr

structure EnumResult where
  trace : List EnumEvent
  outcome : EnumOutcome
  deriving DecidableEq, Repr

/-- The composite literal `Repo{Date: now, Owner: *repo.Owner.Login, Name:
*repo.Name, URL: *repo.SSHURL}`; `none` when a dereferenced pointer is nil. -/
def mkRepo (now : String) (repo : Repository) : Option Repo :=
  match repo.Owner with
  | none => none
  | some owner =>
    match owner.Login with
    | none => none
    | some login =>
      match repo.Name with
      | none => none
      | some name =>
        match repo.SSHURL with
        | none => none
        | some url => some { Date := now, Owner := login, Name := name, URL := url }

/-- The inner loop `for _, repo := range repos`: the sends made, and whether
the loop ran to its end (`false`: a nil pointer was dereferenced). -/
def sendPage (now : String) : List Repository → List EnumEvent × Bool
  | [] => ([], true)
  | repo :: rest =>
    match mkRepo now repo with
    | none => ([], false)
    | some r =>
      match sendPage now rest with
      | (t, completed) => (EnumEvent.send r :: t, completed)

/-- The outer `for` loop of `uploadReposForOrg`, with `opt.ListOptions.Page =
page`, run against the answers the listing API gives to the successive
requests. -/
def listLoop (now org : String) : Int → List ListResult → EnumResult
  | page, [] => ⟨[.listByOrg org page 30], .waiting⟩
  | page, .error err :: _ => ⟨[.listByOrg org page 30], .returned (some err)⟩
  | page, .ok repos nextPage :: rest =>
    match sendPage now repos with
    | (t, false) => ⟨.listByOrg org page 30 :: t, .panicked⟩
    | (t, true) =>
      if nextPage = 0 then ⟨.listByOrg org page 30 :: t, .returned none⟩
      else
        let r := listLoop now org nextPage rest
        ⟨.listByOrg org page 30 :: t ++ r.trace, r.outcome⟩

/-- The source's `uploadReposForOrg`; `now` is the value of
`time.Now().Format("20060102150405")` and `answers` are the answers of the
listing API to the successive requests. -/
def uploadReposForOrg (now org : String) (answers : List ListResult) : EnumResult :=
  listLoop now org 0 answers

/-! ## The coordinator: `main` -/

/-- What `main` does from `make(chan Repo)` on. -/
inductive MainEvent where
  | makeChan
  | wgAdd (delta : Int)
  | goWorker
  | enum (e : EnumEvent)
  | logFatal (err : Err)
  | closeChan
  | wgWait
  deriving DecidableEq, Repr

/-- How `main` ends. -/
inductive MainOutcome where
  | returned
  | fatal (err : Err)
  | panicked
  | waiting
  deriving DecidableEq, Repr

structure MainResult where
  trace : List MainEvent
  outcome : MainOutcome
  deriving DecidableEq, Repr

/-- The loop `for i := 0; i < 50; i++ { wg.Add(1); go worker(repoChan, wg) }`,
with `n` iterations left. -/
def startWorkers : Nat → List MainEvent
  | 0 => []
  | n + 1 => .wgAdd 1 :: .goWorker :: startWorkers n

/-- The source's `main` from `repoChan := make(chan Repo)` on (flag parsing and
the construction of the two clients come before and are not modelled). The
trace is the program order of `main` itself: `wg.Wait()` is recorded as a call,
and `returned` is the end of `main` that follows the return of that call. -/
def main (now org : String) (answers : List ListResult) : MainResult :=
  let setup := MainEvent.makeChan :: startWorkers 50
  let e := uploadReposForOrg now org answers
  match e.outcome with
  | .returned (some err) => ⟨setup ++ e.trace.map .enum ++ [.logFatal err], .fatal err⟩
  | .returned none => ⟨setup ++ e.trace.map .enum ++ [.closeChan, .wgWait], .returned⟩
  | .panicked => ⟨setup ++ e.trace.map .enum, .panicked⟩
  | .waiting => ⟨setup ++ e.trace.map .enum, .waiting⟩

/-! ## Vocabulary of the statements -/

/-- The seven steps of a job, in the order of the source. -/
inductive Step where
  | acquireWorkspace
  | clone
  | compress
  | openArchive
  | openStoreWriter
  | streamCopy
  | finalizeWriter
  deriving DecidableEq, Repr

/-- The position of a step in the job. -/
def Step.idx : Step → Nat
  | .acquireWorkspace => 0
  | .clone => 1
  | .compress => 2
  | .openArchive => 3
  | .openStoreWriter => 4
  | .streamCopy => 5
  | .finalizeWriter => 6

def allSteps : List Step :=
  [.acquireWorkspace, .clone, .compress, .openArchive, .openStoreWriter, .streamCopy,
    .finalizeWriter]

/-- The step an external call belongs to; the two releases (`archiveFile.Close`
and the removal of the workspace) are no step. -/
def Event.step : Event → Option Step
  | .tempDir _ _ => some .acquireWorkspace
  | .run name _ _ =>
    if name = "git" then some .clone else if name = "tar" then some .compress else none
  | .osOpen _ => some .openArchive
  | .putWriter _ => some .openStoreWriter
  | .ioCopy => some .streamCopy
  | .closeWriter => some .finalizeWriter
  | .closeFile => none
  | .removeAll _ => none

/-- The steps invoked in a trace, in order. -/
def stepsOf (trace : List Event) : List Step :=
  trace.filterMap Event.step

/-- The error the world gives to a step, if the step is reached. -/
def JobEnv.errorOf (env : JobEnv) : Step → Option Err
  | .acquireWorkspace => match env.tempDir with
    | .error err => some err
    | .ok _ => none
  | .clone => env.gitClone
  | .compress => env.tar
  | .openArchive => env.osOpen
  | .openStoreWriter => env.putWriter
  | .streamCopy => env.ioCopy.2
  | .finalizeWriter => env.closeWriter

/-- The descriptors sent on the channel in a trace of the enumerator. -/
def sentOf (trace : List EnumEvent) : List Repo :=
  trace.filterMap fun e => match e with
    | .send r => some r
    | .listByOrg _ _ _ => none

/-- The pages requested in a trace of the enumerator. -/
def requestsOf (trace : List EnumEvent) : List Int :=
  trace.filterMap fun e => match e with
    | .send _ => none
    | .listByOrg _ page _ => some page

/-- A listing entry whose owner login, name and SSH URL are present. -/
def entry (login name url : String) : Repository :=
  { Owner := some { Login := some login }, Name := some name, SSHURL := some url }

/-- A successful answer of the listing API carrying the given entries, each
given by owner login, name and SSH URL. -/
def page (entries : List (String × String × String)) (nextPage : Int) : ListResult :=
  .ok (entries.map fun e => entry e.1 e.2.1 e.2.2) nextPage

/-- The lines printed in a trace of a worker. -/
def linesOf (trace : List WorkerEvent) : List String :=
  trace.filterMap fun e => match e with
    | .print line => some line
    | _ => none

/-- The number of steps a job invokes: up to and including the first one that
fails. -/
def attempted (env : JobEnv) : Nat :=
  if env.errorOf .acquireWorkspace ≠ none then 1
  else if env.errorOf .clone ≠ none then 2
  else if env.errorOf .compress ≠ none then 3
  else if env.errorOf .openArchive ≠ none then 4
  else if env.errorOf .openStoreWriter ≠ none then 5
  else if env.errorOf .streamCopy ≠ none then 6
  else 7

/-! ## Concrete inputs -/

/-- A world in which every call of a job succeeds and the copy moves 42 bytes. -/
def env0 : JobEnv :=
  { tempDir := .ok "/tmp/gh-archive-1", gitClone := none, tar := none, osOpen := none,
    putWriter := none, ioCopy := (42, none), closeWriter := none, removeAll := none }

/-- A world in which `git clone` fails. -/
def envCloneFails : JobEnv := { env0 with gitClone := some ⟨"exit status 128"⟩ }

/-- A world in which the copy fails after it has moved 17 bytes. -/
def envCopyFails : JobEnv := { env0 with ioCopy := (17, some ⟨"connection reset"⟩) }

/-- A world in which every step succeeds and the removal of the workspace fails. -/
def envCleanupFails : JobEnv := { env0 with removeAll := some ⟨"permission denied"⟩ }

/-- A world in which every call succeeds and the copy moves no byte. -/
def envEmptyCopy : JobEnv := { env0 with ioCopy := (0, none) }

def repo0 : Repo :=
  { Date := "20240102030405", Owner := "acme", Name := "alpha",
    URL := "git@github.com:acme/alpha.git" }

/-- The descriptor `repo0` with another clone URL. -/
def repo0Https : Repo := { repo0 with URL := "https://github.com/acme/alpha.git" }

def repo1 : Repo :=
  { Date := "20240102030405", Owner := "acme", Name := "beta",
    URL := "git@github.com:acme/beta.git" }

/-- The descriptor the enumerator builds, at time stamp `now`, from an entry
given by owner login, name and SSH URL. -/
def descriptor (now : String) (e : String × String × String) : Repo :=
  { Date := now, Owner := e.1, Name := e.2.1, URL := e.2.2 }

/-- The listing error of the concrete runs. -/
def listErr : Err := ⟨"502 Bad Gateway"⟩

/-- Two pages: `alpha` on the first, which names page 2, and `beta` on the last. -/
def twoPages : List (List (String × String × String) × Int) :=
  [([("acme", "alpha", "git@github.com:acme/alpha.git")], 2)]

def lastPage : List (String × String × String) :=
  [("acme", "beta", "git@github.com:acme/beta.git")]

/-! ## Facts about the formatting calls -/

theorem s3Key_eq (repo : Repo) :
    s3Key repo = repo.Date ++ "/" ++ repo.Owner ++ "/" ++ repo.Name ++ "-" ++ repo.Date
      ++ ".tar.gz" := by
  apply String.ext
  simp [s3Key, Sprintf, sprintfAux, String.data_append]

theorem errorLine_eq (url msg : String) :
    Sprintf "Error while downloading %s: %s\n" [.str url, .str msg]
      = "Error while downloading " ++ url ++ ": " ++ msg ++ "\n" := by
  apply String.ext
  simp [Sprintf, sprintfAux, String.data_append]

theorem successLine_eq (url : String) (n : Int) :
    Sprintf "Successfully uploaded %s (%d bytes)\n" [.str url, .int n]
      = "Successfully uploaded " ++ url ++ " (" ++ toString n ++ " bytes)\n" := by
  apply String.ext
  simp [Sprintf, sprintfAux, String.data_append]

/-! ## Facts about one job -/

theorem stepsOf_job (env : JobEnv) (repo : Repo) :
    stepsOf (uploadRepositoryToS3 env repo).trace = allSteps.take (attempted env) := by
  rcases env with ⟨td, gc, tar, op, pw, ⟨n, ce⟩, cw, ra⟩
  cases td <;> cases gc <;> cases tar <;> cases op <;> cases pw <;> cases ce <;> cases cw <;>
    cases ra <;>
    simp [uploadRepositoryToS3, uploadBody, cloneRepo, archiveRepo, cleanup, stepsOf, attempted,
      JobEnv.errorOf, allSteps, Event.step]

theorem mem_take_allSteps (n : Nat) (j : Step) : j ∈ allSteps.take n ↔ j.idx < n := by
  by_cases hn : n < 7
  · have : n = 0 ∨ n = 1 ∨ n = 2 ∨ n = 3 ∨ n = 4 ∨ n = 5 ∨ n = 6 := by omega
    rcases this with h | h | h | h | h | h | h <;> subst h <;> cases j <;>
      simp [allSteps, Step.idx]
  · have h7 : allSteps.take n = allSteps := List.take_of_length_le (by simp [allSteps]; omega)
    rw [h7]
    cases j <;> simp [allSteps, Step.idx] <;> omega

theorem attempted_le_of_error (env : JobEnv) (k : Step) (hk : env.errorOf k ≠ none) :
    attempted env ≤ k.idx + 1 := by
  unfold attempted
  cases k <;> simp only [Step.idx] <;> split_ifs <;> omega

theorem lt_attempted_of_no_error (env : JobEnv) (k : Step)
    (hk : ∀ j : Step, j.idx < k.idx → env.errorOf j = none) : k.idx < attempted env := by
  have h0 := hk .acquireWorkspace
  have h1 := hk .clone
  have h2 := hk .compress
  have h3 := hk .openArchive
  have h4 := hk .openStoreWriter
  have h5 := hk .streamCopy
  unfold attempted
  cases k <;> simp only [Step.idx] at * <;> split_ifs <;> simp_all

theorem putWriter_mem_job (env : JobEnv) (repo : Repo) (key : String)
    (h : Event.putWriter key ∈ (uploadRepositoryToS3 env repo).trace) : key = s3Key repo := by
  rcases env with ⟨td, gc, tar, op, pw, ⟨n, ce⟩, cw, ra⟩
  revert h
  cases td <;> cases gc <;> cases tar <;> cases op <;> cases pw <;> cases ce <;> cases cw <;>
    cases ra <;>
    simp [uploadRepositoryToS3, uploadBody, cloneRepo, archiveRepo, cleanup]

theorem removeAll_not_mem_body (env : JobEnv) (tmp : String) (repo : Repo) (p : String) :
    Event.removeAll p ∉ (uploadBody env tmp repo).1 := by
  rcases env with ⟨td, gc, tar, op, pw, ⟨n, ce⟩, cw, ra⟩
  cases gc <;> cases tar <;> cases op <;> cases pw <;> cases ce <;> cases cw <;>
    simp [uploadBody, cloneRepo, archiveRepo]

theorem job_outcome (env : JobEnv) (repo : Repo)
    (hclean : ∀ tmp : String, env.tempDir = .ok tmp → env.removeAll = none) :
    (uploadRepositoryToS3 env repo).outcome =
      match allSteps.findSome? env.errorOf with
      | some err => .returned 0 (some err)
      | none => .returned env.ioCopy.1 none := by
  rcases env with ⟨td, gc, tar, op, pw, ⟨n, ce⟩, cw, ra⟩
  cases td with
  | error err => simp [uploadRepositoryToS3, allSteps, List.findSome?, JobEnv.errorOf]
  | ok tmp =>
    have hra : ra = none := hclean tmp rfl
    subst hra
    cases gc <;> cases tar <;> cases op <;> cases pw <;> cases ce <;> cases cw <;>
      simp [uploadRepositoryToS3, uploadBody, cloneRepo, archiveRepo, cleanup, allSteps,
        List.findSome?, JobEnv.errorOf]

theorem mem_allSteps (k : Step) : k ∈ allSteps := by
  cases k <;> simp [allSteps]

theorem findSome_first_failure (env : JobEnv) (k : Step) (err : Err)
    (hk : env.errorOf k = some err)
    (hbefore : ∀ j : Step, j.idx < k.idx → env.errorOf j = none) :
    allSteps.findSome? env.errorOf = some err := by
  have h0 := hbefore .acquireWorkspace
  have h1 := hbefore .clone
  have h2 := hbefore .compress
  have h3 := hbefore .openArchive
  have h4 := hbefore .openStoreWriter
  have h5 := hbefore .streamCopy
  cases k <;> simp only [Step.idx] at * <;> simp_all [allSteps, List.findSome?]

theorem split_at_separator (c : Char) :
    ∀ a b a' b' : List Char, c ∉ a → c ∉ a' → a ++ c :: b = a' ++ c :: b' → a = a' ∧ b = b'
  | [], b, [], b', _, _, h => by simpa using h
  | [], b, x :: a', b', _, h', h => by
    simp only [List.nil_append, List.cons_append, List.cons.injEq] at h
    exact absurd (h.1 ▸ List.mem_cons_self _ _) h'
  | x :: a, b, [], b', ha, _, h => by
    simp only [List.nil_append, List.cons_append, List.cons.injEq] at h
    exact absurd (h.1 ▸ List.mem_cons_self _ _) ha
  | x :: a, b, y :: a', b', ha, ha', h => by
    simp only [List.cons_append, List.cons.injEq] at h
    have ih := split_at_separator c a b a' b'
      (fun hm => ha (List.mem_cons_of_mem _ hm)) (fun hm => ha' (List.mem_cons_of_mem _ hm)) h.2
    exact ⟨by rw [h.1, ih.1], ih.2⟩

theorem s3Key_injective (r1 r2 : Repo) (hd : r1.Date = r2.Date)
    (h1 : '/' ∉ r1.Owner.data) (h2 : '/' ∉ r2.Owner.data) (hk : s3Key r1 = s3Key r2) :
    r1.Owner = r2.Owner ∧ r1.Name = r2.Name := by
  rw [s3Key_eq, s3Key_eq, hd] at hk
  have hdata := congrArg String.data hk
  simp only [String.data_append, List.append_assoc, List.append_cancel_left_eq] at hdata
  simp only [List.singleton_append] at hdata
  obtain ⟨ho, hrest⟩ := split_at_separator '/' _ _ _ _ h1 h2 hdata
  have hn : r1.Name.data = r2.Name.data := List.append_cancel_right hrest
  exact ⟨String.ext ho, String.ext hn⟩

/-! ## The claims about one job -/

/-- C1: whatever the world answers and whatever the clone URL of the
descriptor, every key that `uploadRepositoryToS3` passes to `bucket.PutWriter`
is exactly `Date ++ "/" ++ Owner ++ "/" ++ Name ++ "-" ++ Date ++ ".tar.gz"`,
and when the four calls before `PutWriter` succeed that key is passed. -/
theorem C1_object_key_format (env : JobEnv) (repo : Repo) :
    (∀ url key : String,
      Event.putWriter key ∈ (uploadRepositoryToS3 env { repo with URL := url }).trace →
        key = repo.Date ++ "/" ++ repo.Owner ++ "/" ++ repo.Name ++ "-" ++ repo.Date
          ++ ".tar.gz") ∧
    (∀ tmp : String, env.tempDir = .ok tmp → env.gitClone = none → env.tar = none →
      env.osOpen = none →
        Event.putWriter (repo.Date ++ "/" ++ repo.Owner ++ "/" ++ repo.Name ++ "-" ++ repo.Date
          ++ ".tar.gz") ∈ (uploadRepositoryToS3 env repo).trace) := by
  constructor
  · intro url key h
    rw [putWriter_mem_job env _ key h, s3Key_eq]
  · intro tmp h1 h2 h3 h4
    rcases env with ⟨td, gc, tar, op, pw, ⟨n, ce⟩, cw, ra⟩
    simp only at h1 h2 h3 h4
    subst h1 h2 h3 h4
    rw [← s3Key_eq]
    cases pw <;> cases ce <;> cases cw <;> cases ra <;>
      simp [uploadRepositoryToS3, uploadBody, cloneRepo, archiveRepo, cleanup]

theorem C1_object_key_format_witness :
    Event.putWriter (repo0.Date ++ "/" ++ repo0.Owner ++ "/" ++ repo0.Name ++ "-" ++ repo0.Date
      ++ ".tar.gz") ∈ (uploadRepositoryToS3 env0 repo0).trace
    ∧ repo0.Date ++ "/" ++ repo0.Owner ++ "/" ++ repo0.Name ++ "-" ++ repo0.Date ++ ".tar.gz"
      = "20240102030405/acme/alpha-20240102030405.tar.gz" :=
  ⟨(C1_object_key_format env0 repo0).2 "/tmp/gh-archive-1" rfl rfl rfl rfl, by decide⟩

/-- C3: the steps a job invokes are an initial segment of acquire-workspace,
clone, compress, open-archive, open-store-writer, stream-copy,
finalize-writer, in that order; when a step fails no later step is invoked;
a step whose predecessors all succeed is invoked; and when the clone fails,
every call of the job is the workspace creation, the clone, or a release
(closing a file, removing the workspace). -/
theorem C3_steps_in_order_stop_at_first_failure (env : JobEnv) (repo : Repo) :
    stepsOf (uploadRepositoryToS3 env repo).trace <+: allSteps ∧
    (∀ k j : Step, env.errorOf k ≠ none → k.idx < j.idx →
      j ∉ stepsOf (uploadRepositoryToS3 env repo).trace) ∧
    (∀ k : Step, (∀ j : Step, j.idx < k.idx → env.errorOf j = none) →
      k ∈ stepsOf (uploadRepositoryToS3 env repo).trace) ∧
    (env.gitClone ≠ none → ∀ e ∈ (uploadRepositoryToS3 env repo).trace,
      e.step = some .acquireWorkspace ∨ e.step = some .clone ∨ e.step = none) := by
  refine ⟨?_, ?_, ?_, ?_⟩
  · rw [stepsOf_job]
    exact List.take_prefix _ _
  · intro k j hk hkj hj
    rw [stepsOf_job, mem_take_allSteps] at hj
    have := attempted_le_of_error env k hk
    omega
  · intro k hk
    rw [stepsOf_job, mem_take_allSteps]
    exact lt_attempted_of_no_error env k hk
  · intro hc e he
    have hsteps : ∀ s, e.step = some s → s ∈ stepsOf (uploadRepositoryToS3 env repo).trace := by
      intro s hs
      exact List.mem_filterMap.mpr ⟨e, he, hs⟩
    cases hstep : e.step with
    | none => simp
    | some s =>
      have hmem := hsteps s hstep
      rw [stepsOf_job, mem_take_allSteps] at hmem
      have hle := attempted_le_of_error env .clone hc
      cases s <;> simp [Step.idx] at hmem hle ⊢ <;> omega

theorem C3_steps_in_order_stop_at_first_failure_witness :
    stepsOf (uploadRepositoryToS3 envCloneFails repo0).trace = [.acquireWorkspace, .clone] ∧
    Step.compress ∉ stepsOf (uploadRepositoryToS3 envCloneFails repo0).trace ∧
    Step.clone ∈ stepsOf (uploadRepositoryToS3 envCloneFails repo0).trace :=
  ⟨by decide,
   (C3_steps_in_order_stop_at_first_failure envCloneFails repo0).2.1 .clone .compress
     (by decide) (by decide),
   (C3_steps_in_order_stop_at_first_failure envCloneFails repo0).2.2.1 .clone
     (by intro j hj; cases j <;> first | rfl | exact absurd hj (by decide))⟩

/-- C4: when the temporary directory is created, the trace of the job ends
with the removal of that same directory and holds no other removal, whatever
the results of the other calls; when its creation fails, the call of
`ioutil.TempDir` is the only call of the job. -/
theorem C4_cleanup_once_and_last (env : JobEnv) (repo : Repo) :
    (∀ tmp : String, env.tempDir = .ok tmp →
      ∃ pre : List Event, (uploadRepositoryToS3 env repo).trace = pre ++ [Event.removeAll tmp] ∧
        ∀ p : String, Event.removeAll p ∉ pre) ∧
    (∀ err : Err, env.tempDir = .error err →
      (uploadRepositoryToS3 env repo).trace = [Event.tempDir "" "gh-archive-"]) := by
  constructor
  · intro tmp htmp
    refine ⟨[Event.tempDir "" "gh-archive-"] ++ (uploadBody env tmp repo).1 ++
      (if (uploadBody env tmp repo).2.1 then [Event.closeFile] else []), ?_, ?_⟩
    · cases hra : env.removeAll <;>
        simp [uploadRepositoryToS3, htmp, cleanup, hra]
    · intro p hp
      have hb := removeAll_not_mem_body env tmp repo p
      cases hopened : (uploadBody env tmp repo).2.1 <;> simp [hopened] at hp <;> exact hb hp
  · intro err herr
    simp [uploadRepositoryToS3, herr]

theorem C4_cleanup_once_and_last_witness :
    ∃ pre : List Event,
      (uploadRepositoryToS3 envCopyFails repo0).trace
        = pre ++ [Event.removeAll "/tmp/gh-archive-1"] ∧
      ∀ p : String, Event.removeAll p ∉ pre :=
  (C4_cleanup_once_and_last envCopyFails repo0).1 "/tmp/gh-archive-1" rfl

/-- C5 fails as stated: in a world where the seven steps all succeed and the
removal of the workspace fails, `uploadRepositoryToS3` does not return a nil
error with the byte count of the copy: `log.Fatal` ends the process in
`cleanup` and the call never returns. -/
theorem C5_counterexample_cleanup_fatal :
    (∀ k : Step, envCleanupFails.errorOf k = none) ∧
    (uploadRepositoryToS3 envCleanupFails repo0).outcome = .fatal ⟨"permission denied"⟩ ∧
    (uploadRepositoryToS3 envCleanupFails repo0).outcome
      ≠ .returned envCleanupFails.ioCopy.1 none :=
  ⟨by intro k; cases k <;> rfl, by decide, by decide⟩

/-- C5, amended: provided the removal of the workspace does not fail when it
is reached, `uploadRepositoryToS3` returns; it returns byte count 0 with the
error of the first failing step when a step fails (whatever the copy had
moved), it returns a nil error with the byte count of the copy when no step
fails, and so it returns a non-nil error exactly when some step fails. -/
theorem C5_result_when_cleanup_succeeds (env : JobEnv) (repo : Repo)
    (hclean : ∀ tmp : String, env.tempDir = .ok tmp → env.removeAll = none) :
    (∀ (k : Step) (err : Err), env.errorOf k = some err →
      (∀ j : Step, j.idx < k.idx → env.errorOf j = none) →
        (uploadRepositoryToS3 env repo).outcome = .returned 0 (some err)) ∧
    ((∀ k : Step, env.errorOf k = none) →
      (uploadRepositoryToS3 env repo).outcome = .returned env.ioCopy.1 none) ∧
    ((∃ (n : Int) (err : Err), (uploadRepositoryToS3 env repo).outcome = .returned n (some err))
      ↔ ∃ k : Step, env.errorOf k ≠ none) := by
  have hout := job_outcome env repo hclean
  refine ⟨?_, ?_, ?_⟩
  · intro k err hk hbefore
    rw [hout, findSome_first_failure env k err hk hbefore]
  · intro hnone
    have : allSteps.findSome? env.errorOf = none :=
      List.findSome?_eq_none_iff.mpr (fun x _ => hnone x)
    rw [hout, this]
  · constructor
    · rintro ⟨n, err, h⟩
      by_contra hno
      have hnone : ∀ k : Step, env.errorOf k = none := by
        intro k
        by_contra hk
        exact hno ⟨k, hk⟩
      have : allSteps.findSome? env.errorOf = none :=
        List.findSome?_eq_none_iff.mpr (fun x _ => hnone x)
      rw [hout, this] at h
      simp at h
    · rintro ⟨k, hk⟩
      cases hf : allSteps.findSome? env.errorOf with
      | none => exact absurd (List.findSome?_eq_none_iff.mp hf k (mem_allSteps k)) hk
      | some err => exact ⟨0, err, by rw [hout, hf]⟩

theorem C5_result_when_cleanup_succeeds_witness :
    (uploadRepositoryToS3 envCopyFails repo0).outcome
      = .returned 0 (some ⟨"connection reset"⟩) ∧
    envCopyFails.ioCopy.1 = 17 :=
  ⟨(C5_result_when_cleanup_succeeds envCopyFails repo0 (fun _ _ => rfl)).1 .streamCopy
      ⟨"connection reset"⟩ rfl
      (by intro j hj; cases j <;> first | rfl | exact absurd hj (by decide)),
   rfl⟩

/-- C10: two jobs of one run (same `Date`) whose owners contain no `/` and
that pass the same key to `bucket.PutWriter` have the same `Owner` and the
same `Name`; without the restriction on the owners the key is not injective:
two descriptors with the same `Date` and different owners and names have the
same key. -/
theorem C10_object_key_injective :
    (∀ (env1 env2 : JobEnv) (r1 r2 : Repo) (key : String), r1.Date = r2.Date →
      '/' ∉ r1.Owner.data → '/' ∉ r2.Owner.data →
      Event.putWriter key ∈ (uploadRepositoryToS3 env1 r1).trace →
      Event.putWriter key ∈ (uploadRepositoryToS3 env2 r2).trace →
        r1.Owner = r2.Owner ∧ r1.Name = r2.Name) ∧
    (∃ r1 r2 : Repo, r1.Date = r2.Date ∧ r1.Owner ≠ r2.Owner ∧ r1.Name ≠ r2.Name ∧
      s3Key r1 = s3Key r2 ∧
      Event.putWriter (s3Key r1) ∈ (uploadRepositoryToS3 env0 r1).trace ∧
      Event.putWriter (s3Key r1) ∈ (uploadRepositoryToS3 env0 r2).trace) := by
  constructor
  · intro env1 env2 r1 r2 key hd h1 h2 hk1 hk2
    have e1 := putWriter_mem_job env1 r1 key hk1
    have e2 := putWriter_mem_job env2 r2 key hk2
    exact s3Key_injective r1 r2 hd h1 h2 (e1.symm.trans e2)
  · exact ⟨⟨"T", "a/b", "c", "u1"⟩, ⟨"T", "a", "b/c", "u2"⟩, by decide, by decide, by decide,
      by decide, by decide, by decide⟩

theorem C10_object_key_injective_witness :
    repo0.Owner = repo0Https.Owner ∧ repo0.Name = repo0Https.Name :=
  C10_object_key_injective.1 env0 envEmptyCopy repo0 repo0Https
    "20240102030405/acme/alpha-20240102030405.tar.gz" rfl (by decide) (by decide)
    (by decide) (by decide)

/-! ## Facts about the enumerator -/

theorem sendPage_entries (now : String) (entries : List (String × String × String)) :
    sendPage now (entries.map fun e => entry e.1 e.2.1 e.2.2)
      = (entries.map fun e => EnumEvent.send (descriptor now e), true) := by
  induction entries with
  | nil => rfl
  | cons e rest ih =>
    have hmk : mkRepo now (entry e.1 e.2.1 e.2.2) = some (descriptor now e) := rfl
    simp only [List.map_cons, sendPage, hmk, ih]

theorem sentOf_append (t u : List EnumEvent) : sentOf (t ++ u) = sentOf t ++ sentOf u := by
  simp [sentOf]

theorem requestsOf_append (t u : List EnumEvent) :
    requestsOf (t ++ u) = requestsOf t ++ requestsOf u := by
  simp [requestsOf]

theorem sentOf_sends (ds : List Repo) : sentOf (ds.map EnumEvent.send) = ds := by
  induction ds with
  | nil => rfl
  | cons d rest ih =>
    simp only [sentOf, List.map_cons, List.filterMap_cons] at ih ⊢
    rw [ih]

theorem requestsOf_sends (ds : List Repo) : requestsOf (ds.map EnumEvent.send) = [] := by
  induction ds with
  | nil => rfl
  | cons d rest ih =>
    simp only [requestsOf, List.map_cons, List.filterMap_cons] at ih ⊢
    rw [ih]

theorem sentOf_map_send {α : Type} (f : α → Repo) (l : List α) :
    sentOf (l.map fun e => EnumEvent.send (f e)) = l.map f := by
  have h := sentOf_sends (l.map f)
  rw [List.map_map] at h
  exact h

theorem requestsOf_map_send {α : Type} (f : α → Repo) (l : List α) :
    requestsOf (l.map fun e => EnumEvent.send (f e)) = [] := by
  have h := requestsOf_sends (l.map f)
  rw [List.map_map] at h
  exact h

theorem sentOf_request_cons (org : String) (pg n : Int) (t : List EnumEvent) :
    sentOf (EnumEvent.listByOrg org pg n :: t) = sentOf t := by
  simp [sentOf]

theorem requestsOf_request_cons (org : String) (pg n : Int) (t : List EnumEvent) :
    requestsOf (EnumEvent.listByOrg org pg n :: t) = pg :: requestsOf t := by
  simp [requestsOf]

/-- The loop of the enumerator through a chain of successful pages that all
name a next page, followed by answers at which the loop makes one request,
sends `tsent` and ends with `out`. -/
theorem listLoop_chain (now org : String) (tail : List ListResult) (out : EnumOutcome)
    (tsent : List Repo)
    (hstop : ∀ q : Int, listLoop now org q tail
      = ⟨EnumEvent.listByOrg org q 30 :: tsent.map EnumEvent.send, out⟩) :
    ∀ (init : List (List (String × String × String) × Int)) (pg : Int),
      (∀ p ∈ init, p.2 ≠ 0) →
      (listLoop now org pg (init.map (fun p => page p.1 p.2) ++ tail)).outcome = out ∧
      sentOf (listLoop now org pg (init.map (fun p => page p.1 p.2) ++ tail)).trace
        = (init.map (·.1)).flatten.map (descriptor now) ++ tsent ∧
      requestsOf (listLoop now org pg (init.map (fun p => page p.1 p.2) ++ tail)).trace
        = pg :: init.map (·.2) ∧
      ∃ (pre : List EnumEvent) (q : Int),
        (listLoop now org pg (init.map (fun p => page p.1 p.2) ++ tail)).trace
          = pre ++ EnumEvent.listByOrg org q 30 :: tsent.map EnumEvent.send
  | [], pg, _ => by
    simp only [List.map_nil, List.nil_append, hstop, List.flatten_nil]
    refine ⟨trivial, ?_, ?_, [], pg, rfl⟩
    · rw [sentOf_request_cons, sentOf_sends]
    · rw [requestsOf_request_cons, requestsOf_sends]
  | p :: init, pg, hne => by
    have hp : p.2 ≠ 0 := hne p (List.mem_cons_self _ _)
    have ih := listLoop_chain now org tail out tsent hstop init p.2
      (fun x hx => hne x (List.mem_cons_of_mem _ hx))
    obtain ⟨ih1, ih2, ih3, pre, q, ih4⟩ := ih
    have hstep : listLoop now org pg ((p :: init).map (fun p => page p.1 p.2) ++ tail)
        = ⟨EnumEvent.listByOrg org pg 30 :: (p.1.map fun e => EnumEvent.send (descriptor now e))
            ++ (listLoop now org p.2 (init.map (fun p => page p.1 p.2) ++ tail)).trace,
           (listLoop now org p.2 (init.map (fun p => page p.1 p.2) ++ tail)).outcome⟩ := by
      simp only [List.map_cons, List.cons_append, page, listLoop, sendPage_entries, hp,
        if_false]
      rfl
    rw [hstep]
    refine ⟨ih1, ?_, ?_, ?_⟩
    · simp only [List.cons_append, sentOf_request_cons, sentOf_append, ih2, List.map_cons,
        List.flatten_cons, List.map_append, List.append_assoc]
      rw [sentOf_map_send]
    · simp only [List.cons_append, requestsOf_request_cons, requestsOf_append, ih3,
        List.map_cons]
      rw [requestsOf_map_send]
      rfl
    · exact ⟨EnumEvent.listByOrg org pg 30
        :: (p.1.map fun e => EnumEvent.send (descriptor now e)) ++ pre, q, by
          simp only [ih4, List.cons_append, List.append_assoc]⟩

theorem listLoop_last_page (now org : String) (last : List (String × String × String))
    (rest : List ListResult) (q : Int) :
    listLoop now org q (page last 0 :: rest)
      = ⟨EnumEvent.listByOrg org q 30 :: (last.map (descriptor now)).map EnumEvent.send,
         .returned none⟩ := by
  simp only [page, listLoop, sendPage_entries, if_true, List.map_map]
  rfl

theorem listLoop_error (now org : String) (err : Err) (rest : List ListResult) (q : Int) :
    listLoop now org q (.error err :: rest)
      = ⟨EnumEvent.listByOrg org q 30 :: ([] : List Repo).map EnumEvent.send,
         .returned (some err)⟩ := by
  simp [listLoop]

/-! ## The claims about the enumerator -/

/-- C2: against a chain of successful listing answers of which every one but
the last names a next page and the last names none, `uploadReposForOrg`
returns nil, has sent on the channel exactly the entries of the pages in page
order and in the order within each page, each as the descriptor with the
entry's owner login, name and SSH URL and with the one time stamp `now`; the
number of descriptors sent is the total number of entries; and the pages it
requested are 0 and then the `NextPage` of each answer but the last. -/
theorem C2_enumerates_every_page_in_order (now org : String)
    (init : List (List (String × String × String) × Int))
    (last : List (String × String × String)) (rest : List ListResult)
    (hne : ∀ p ∈ init, p.2 ≠ 0) :
    (uploadReposForOrg now org
      (init.map (fun p => page p.1 p.2) ++ page last 0 :: rest)).outcome = .returned none ∧
    sentOf (uploadReposForOrg now org
      (init.map (fun p => page p.1 p.2) ++ page last 0 :: rest)).trace
        = ((init.map (·.1)).flatten ++ last).map
            (fun e => { Date := now, Owner := e.1, Name := e.2.1, URL := e.2.2 }) ∧
    (sentOf (uploadReposForOrg now org
      (init.map (fun p => page p.1 p.2) ++ page last 0 :: rest)).trace).length
        = (init.map (·.1.length)).sum + last.length ∧
    (∀ d ∈ sentOf (uploadReposForOrg now org
      (init.map (fun p => page p.1 p.2) ++ page last 0 :: rest)).trace, d.Date = now) ∧
    requestsOf (uploadReposForOrg now org
      (init.map (fun p => page p.1 p.2) ++ page last 0 :: rest)).trace
        = 0 :: init.map (·.2) := by
  obtain ⟨h1, h2, h3, -⟩ := listLoop_chain now org (page last 0 :: rest) (.returned none)
    (last.map (descriptor now)) (listLoop_last_page now org last rest) init 0 hne
  have hsent : sentOf (uploadReposForOrg now org
      (init.map (fun p => page p.1 p.2) ++ page last 0 :: rest)).trace
        = ((init.map (·.1)).flatten ++ last).map (descriptor now) := by
    rw [List.map_append]
    exact h2
  refine ⟨h1, hsent, ?_, ?_, h3⟩
  · rw [hsent]
    simp [List.length_flatten, List.map_map, Function.comp_def]
  · intro d hd
    rw [hsent] at hd
    obtain ⟨e, -, rfl⟩ := List.mem_map.mp hd
    rfl

theorem C2_enumerates_every_page_in_order_witness :
    sentOf (uploadReposForOrg "20240102030405" "acme"
      (twoPages.map (fun p => page p.1 p.2) ++ page lastPage 0 :: [])).trace = [repo0, repo1] ∧
    (uploadReposForOrg "20240102030405" "acme"
      (twoPages.map (fun p => page p.1 p.2) ++ page lastPage 0 :: [])).outcome
        = .returned none :=
  ⟨by decide,
   (C2_enumerates_every_page_in_order "20240102030405" "acme" twoPages lastPage []
     (by decide)).1⟩

/-- C6: when the listing request that follows a chain of successful answers,
each naming a next page, fails, `uploadReposForOrg` returns the error of that
request; the failing request is the last event of its trace, so that it makes
no further request and no further send; the pages requested are 0 and the
`NextPage` of each answer of the chain; and the descriptors sent are exactly
the entries of the pages of the chain, in order. -/
theorem C6_listing_failure_stops_enumeration (now org : String)
    (init : List (List (String × String × String) × Int)) (err : Err)
    (rest : List ListResult) (hne : ∀ p ∈ init, p.2 ≠ 0) :
    (uploadReposForOrg now org
      (init.map (fun p => page p.1 p.2) ++ .error err :: rest)).outcome
        = .returned (some err) ∧
    sentOf (uploadReposForOrg now org
      (init.map (fun p => page p.1 p.2) ++ .error err :: rest)).trace
        = (init.map (·.1)).flatten.map
            (fun e => { Date := now, Owner := e.1, Name := e.2.1, URL := e.2.2 }) ∧
    requestsOf (uploadReposForOrg now org
      (init.map (fun p => page p.1 p.2) ++ .error err :: rest)).trace
        = 0 :: init.map (·.2) ∧
    (requestsOf (uploadReposForOrg now org
      (init.map (fun p => page p.1 p.2) ++ .error err :: rest)).trace).length
        = init.length + 1 ∧
    ∃ (pre : List EnumEvent) (q : Int),
      (uploadReposForOrg now org
        (init.map (fun p => page p.1 p.2) ++ .error err :: rest)).trace
          = pre ++ [EnumEvent.listByOrg org q 30] := by
  obtain ⟨h1, h2, h3, pre, q, h4⟩ := listLoop_chain now org (.error err :: rest)
    (.returned (some err)) [] (listLoop_error now org err rest) init 0 hne
  refine ⟨h1, ?_, h3, ?_, pre, q, ?_⟩
  · rw [List.append_nil] at h2
    exact h2
  · rw [show requestsOf (uploadReposForOrg now org
      (init.map (fun p => page p.1 p.2) ++ .error err :: rest)).trace = 0 :: init.map (·.2)
      from h3]
    simp
  · exact h4

theorem C6_listing_failure_stops_enumeration_witness :
    (uploadReposForOrg "20240102030405" "acme"
      (twoPages.map (fun p => page p.1 p.2) ++ .error listErr :: [])).outcome
        = .returned (some listErr) ∧
    sentOf (uploadReposForOrg "20240102030405" "acme"
      (twoPages.map (fun p => page p.1 p.2) ++ .error listErr :: [])).trace = [repo0] ∧
    requestsOf (uploadReposForOrg "20240102030405" "acme"
      (twoPages.map (fun p => page p.1 p.2) ++ .error listErr :: [])).trace = [0, 2] :=
  ⟨(C6_listing_failure_stops_enumeration "20240102030405" "acme" twoPages listErr []
     (by decide)).1, by decide, by decide⟩

/-! ## Facts about the coordinator and the worker -/

theorem closeChan_not_mem_startWorkers (n : Nat) : MainEvent.closeChan ∉ startWorkers n := by
  induction n with
  | zero => simp [startWorkers]
  | succ n ih => simp [startWorkers, ih]

theorem wgWait_not_mem_startWorkers (n : Nat) : MainEvent.wgWait ∉ startWorkers n := by
  induction n with
  | zero => simp [startWorkers]
  | succ n ih => simp [startWorkers, ih]

theorem linesOf_append (t u : List WorkerEvent) :
    linesOf (t ++ u) = linesOf t ++ linesOf u := by
  simp [linesOf]

theorem linesOf_jobs (l : List Event) : linesOf (l.map WorkerEvent.job) = [] := by
  induction l with
  | nil => rfl
  | cons e rest ih =>
    simp only [linesOf, List.map_cons, List.filterMap_cons] at ih ⊢
    exact ih

theorem linesOf_print (line : String) : linesOf [WorkerEvent.print line] = [line] := rfl

theorem linesOf_nil : linesOf [] = [] := rfl

theorem job_returns (env : JobEnv) (repo : Repo) (hclean : env.removeAll = none) :
    (∃ err : Err, (uploadRepositoryToS3 env repo).outcome = .returned 0 (some err)) ∨
    (uploadRepositoryToS3 env repo).outcome = .returned env.ioCopy.1 none := by
  have hout := job_outcome env repo (fun _ _ => hclean)
  cases hf : allSteps.findSome? env.errorOf with
  | none => right; rw [hout, hf]
  | some err => left; exact ⟨err, by rw [hout, hf]⟩

/-! ## The claims about the coordinator and the worker -/

/-- C7 fails as stated: when the first listing request fails, `main` hands the
error to `log.Fatal`, which ends the process: its trace holds neither the
close of the channel nor the wait for the workers. -/
theorem C7_counterexample_no_close_on_failure :
    (uploadReposForOrg "20240102030405" "acme" [.error listErr]).outcome
      = .returned (some listErr) ∧
    (main "20240102030405" "acme" [.error listErr]).outcome = .fatal listErr ∧
    MainEvent.closeChan ∉ (main "20240102030405" "acme" [.error listErr]).trace ∧
    MainEvent.wgWait ∉ (main "20240102030405" "acme" [.error listErr]).trace := by
  refine ⟨by decide, by decide, ?_, ?_⟩
  · simp [main, uploadReposForOrg, listLoop, closeChan_not_mem_startWorkers]
  · simp [main, uploadReposForOrg, listLoop, wgWait_not_mem_startWorkers]

/-- C7, amended: when the enumeration returns nil, `main` closes the channel
once, after every event of the enumeration, then waits for the workers, and
returns; when the enumeration returns an error, the last thing `main` does is
to hand that error to `log.Fatal`, and it neither closes the channel nor
waits for the workers. -/
theorem C7_close_and_wait_only_after_success (now org : String)
    (answers : List ListResult) :
    ((uploadReposForOrg now org answers).outcome = .returned none →
      (main now org answers).outcome = .returned ∧
      ∃ pre : List MainEvent,
        (main now org answers).trace = pre ++ [MainEvent.closeChan, MainEvent.wgWait] ∧
        MainEvent.closeChan ∉ pre ∧ MainEvent.wgWait ∉ pre ∧
        ∀ e ∈ (uploadReposForOrg now org answers).trace, MainEvent.enum e ∈ pre) ∧
    (∀ err : Err, (uploadReposForOrg now org answers).outcome = .returned (some err) →
      (main now org answers).outcome = .fatal err ∧
      MainEvent.closeChan ∉ (main now org answers).trace ∧
      MainEvent.wgWait ∉ (main now org answers).trace ∧
      ∃ pre : List MainEvent, (main now org answers).trace = pre ++ [MainEvent.logFatal err]) := by
  constructor
  · intro h
    refine ⟨by simp [main, h], MainEvent.makeChan :: startWorkers 50
      ++ (uploadReposForOrg now org answers).trace.map .enum, by simp [main, h], ?_, ?_, ?_⟩
    · simp [closeChan_not_mem_startWorkers]
    · simp [wgWait_not_mem_startWorkers]
    · intro e he
      simp only [List.cons_append, List.mem_cons, List.mem_append, List.mem_map]
      exact Or.inr (Or.inr ⟨e, he, rfl⟩)
  · intro err h
    refine ⟨by simp [main, h], ?_, ?_, MainEvent.makeChan :: startWorkers 50
      ++ (uploadReposForOrg now org answers).trace.map .enum, by simp [main, h]⟩
    · simp [main, h, closeChan_not_mem_startWorkers]
    · simp [main, h, wgWait_not_mem_startWorkers]

theorem C7_close_and_wait_only_after_success_witness :
    (main "20240102030405" "acme"
      (twoPages.map (fun p => page p.1 p.2) ++ [page lastPage 0])).outcome = .returned ∧
    (main "20240102030405" "acme"
      (twoPages.map (fun p => page p.1 p.2) ++ [.error listErr])).outcome = .fatal listErr :=
  ⟨((C7_close_and_wait_only_after_success "20240102030405" "acme"
      (twoPages.map (fun p => page p.1 p.2) ++ [page lastPage 0])).1 (by decide)).1,
   ((C7_close_and_wait_only_after_success "20240102030405" "acme"
      (twoPages.map (fun p => page p.1 p.2) ++ [.error listErr])).2 listErr (by decide)).1⟩

/-- C8 fails as stated: a job whose every call succeeds and whose copy moves
no byte returns `0, nil`, and the worker prints no line for it. -/
theorem C8_counterexample_no_line_for_empty_copy :
    envEmptyCopy.removeAll = none ∧
    (uploadRepositoryToS3 envEmptyCopy repo0).outcome = .returned 0 none ∧
    linesOf (worker [(repo0, envEmptyCopy)]).trace = [] ∧
    (linesOf (worker [(repo0, envEmptyCopy)]).trace).length
      ≠ [(repo0, envEmptyCopy)].length :=
  ⟨rfl, by decide, by decide, by decide⟩

/-- C8, amended: when no cleanup fails, the worker runs the job once for each
descriptor it receives, in order, whatever the results of the earlier jobs;
after each job it prints the failure line with the diagnostic when the job
returned an error, the success line with the byte count when the job returned
no error and a byte count other than 0, and nothing when the job returned no
error and byte count 0; after the last job it calls `wg.Done()`. So it prints
at most one line for each job. -/
theorem C8_worker_runs_and_reports_each_job (ds : List (Repo × JobEnv))
    (hclean : ∀ d ∈ ds, d.2.removeAll = none) :
    (worker ds).fatal = none ∧
    (worker ds).trace
      = ds.flatMap (fun d =>
          (uploadRepositoryToS3 d.2 d.1).trace.map WorkerEvent.job ++
            match (uploadRepositoryToS3 d.2 d.1).outcome with
            | .returned _ (some err) =>
              [WorkerEvent.print
                ("Error while downloading " ++ d.1.URL ++ ": " ++ err.msg ++ "\n")]
            | .returned n none =>
              if n = 0 then []
              else [WorkerEvent.print
                ("Successfully uploaded " ++ d.1.URL ++ " (" ++ toString n ++ " bytes)\n")]
            | .fatal _ => [])
        ++ [WorkerEvent.wgDone] ∧
    (linesOf (worker ds).trace).length ≤ ds.length := by
  induction ds with
  | nil => exact ⟨rfl, rfl, Nat.le_refl _⟩
  | cons d rest ih =>
    obtain ⟨repo, env⟩ := d
    have hd : env.removeAll = none := hclean (repo, env) (List.mem_cons_self _ _)
    obtain ⟨ih1, ih2, ih3⟩ := ih (fun x hx => hclean x (List.mem_cons_of_mem _ hx))
    rcases job_returns env repo hd with ⟨err, hout⟩ | hout
    · refine ⟨?_, ?_, ?_⟩
      · simp only [worker, hout, ih1]
      · simp only [worker, hout, ih2, report, errorLine_eq, List.flatMap_cons,
          List.append_assoc]
        simp
      · simp only [worker, hout, report, linesOf_append, linesOf_jobs, linesOf_print,
          linesOf_nil, ne_eq, not_true_eq_false, if_false, List.nil_append, List.append_nil,
          List.length_append, List.length_cons, List.length_nil]
        omega
    · refine ⟨?_, ?_, ?_⟩
      · simp only [worker, hout, ih1]
      · simp only [worker, hout, ih2, report, successLine_eq, List.flatMap_cons,
          List.append_assoc]
        by_cases hn : env.ioCopy.1 = 0 <;> simp [hn]
      · simp only [worker, hout, report, linesOf_append, linesOf_jobs, List.nil_append,
          List.length_append]
        by_cases hn : env.ioCopy.1 = 0
        · simp only [hn, ne_eq, not_true_eq_false, if_false, linesOf_nil, List.length_nil,
            List.length_cons]
          omega
        · simp only [hn, ne_eq, not_false_eq_true, if_true, linesOf_print, List.length_nil,
            List.length_cons]
          omega

theorem C8_worker_runs_and_reports_each_job_witness :
    (worker [(repo0, envCloneFails), (repo1, env0)]).fatal = none ∧
    linesOf (worker [(repo0, envCloneFails), (repo1, env0)]).trace
      = ["Error while downloading git@github.com:acme/alpha.git: exit status 128\n",
         "Successfully uploaded git@github.com:acme/beta.git (42 bytes)\n"] :=
  ⟨(C8_worker_runs_and_reports_each_job [(repo0, envCloneFails), (repo1, env0)]
      (by decide)).1, by decide⟩

end GithubArchive
